import Mathlib

/-!
Shallow embedding of the semantic core of the lmnr-baml schema language,
together with proofs checking the natural-language specification against it.

Strings manipulated by the prompt assembler are modelled as `List Char`;
Rust's byte indices into UTF-8 text become character indices here.  Both are
used consistently on both sides (indices produced by searching are only ever
consumed by slicing the same string), so the segmented texts agree with the
source for every input.
-/

namespace Baml

/-- Text as a list of characters (Rust `String` / `&str`). -/
abbrev Str := List Char

/-- First index at which `pat` occurs in `hay` (Rust `str::find`). -/
def findSub (hay pat : Str) : Option Nat :=
  match hay with
  | [] => if pat = [] then some 0 else none
  | _ :: t => if pat.isPrefixOf hay then some 0 else (findSub t pat).map (· + 1)

/-- Whether `pat` occurs as a contiguous substring of `hay`
(Rust `str::contains`). -/
def containsSub (hay pat : Str) : Bool :=
  (findSub hay pat).isSome

/-- Replace every (leftmost, non-overlapping) occurrence of `pat` in `s` by
`rep` (Rust `str::replace`).  With an empty pattern, Rust matches at every
character boundary, which is the first branch. -/
def replaceAll (s pat rep : Str) : Str :=
  if h : pat = [] then rep ++ s.flatMap (fun c => c :: rep)
  else
    match s with
    | [] => []
    | c :: t =>
      if pat.isPrefixOf (c :: t) then rep ++ replaceAll ((c :: t).drop pat.length) pat rep
      else c :: replaceAll t pat rep
termination_by s.length
decreasing_by
  · have hp : 0 < pat.length := List.length_pos.mpr h
    simp only [List.length_drop, List.length_cons]
    omega
  · simp

/-- Strip leading and trailing whitespace (Rust `str::trim`). -/
def trimChars (s : Str) : Str :=
  ((s.dropWhile Char.isWhitespace).reverse.dropWhile Char.isWhitespace).reverse

/-- Lexicographic strict order on character lists: the order Rust uses to
`sort` a `Vec<(String, String)>` entrywise. -/
def strLt : Str → Str → Bool
  | [], [] => false
  | [], _ :: _ => true
  | _ :: _, [] => false
  | a :: as, b :: bs => if a < b then true else if b < a then false else strLt as bs

/-- Non-strict lexicographic order on `(key, value)` pairs, key first
(Rust's derived `Ord` on a pair of `String`s), as a Boolean test. -/
def pairLEb (x y : Str × Str) : Bool :=
  if strLt x.1 y.1 then true
  else if strLt y.1 x.1 then false
  else !(strLt y.2 x.2)

/-- The pair order as a relation. -/
def pairLE (x y : Str × Str) : Prop :=
  pairLEb x y = true

instance : DecidableRel pairLE := fun x y => instDecidableEqBool (pairLEb x y) true

/-- Sorting of the consumed-input list (Rust `Vec::sort`, a stable sort under
a total order). -/
def sortPairs (l : List (Str × Str)) : List (Str × Str) :=
  List.insertionSort (fun a b => pairLE a b) l

/-- A located chat-role marker (`ChatBlock` of the prompt parser): its role
name and its deterministic textual key, the literal text searched for in the
substituted template. -/
structure ChatBlockM where
  role : Str
  key : Str
deriving DecidableEq, Repr

/-- The data of `VariantProperties` consumed by `to_prompt`: the raw prompt
text and the three replacer tables (input replacers, printer-block replacers,
chat blocks).  The two hash maps are modelled as association lists from the
marker's `key()` to its substitution value; `to_prompt`'s result does not
depend on their iteration order. -/
structure VariantReplacers where
  prompt : Str
  inputs : List (Str × Str)
  outputs : List (Str × Str)
  chats : List ChatBlockM
deriving DecidableEq, Repr

/-- The representation of a prompt (`PromptAst`). -/
inductive PromptAstM where
  /-- Single-string prompt plus used input replacers. -/
  | single (text : Str) (used : List (Str × Str))
  /-- Multi-part chat prompt plus used input replacers. -/
  | multi (parts : List (Option ChatBlockM × Str)) (used : List (Str × Str))
deriving DecidableEq, Repr

/-- One step of the input-replacer fold in `to_prompt`: the accumulated
prompt text is returned unchanged in both branches; a marker whose key occurs
in it is recorded in the used-inputs list. -/
def inputPass (acc : Str × List (Str × Str)) (kv : Str × Str) : Str × List (Str × Str) :=
  let key := kv.1
  if containsSub acc.1 key then (acc.1, acc.2 ++ [(key, kv.2)]) else (acc.1, acc.2)

/-- The chat-marker location loop of `to_prompt`: locate each chat block's
key in declaration order, searching from the end of the previous match;
blocks that are not found are skipped.  Each located block is recorded with
the half-open span of its key occurrence. -/
def locateChats (prompt : Str) : Nat → List ChatBlockM → List (Option ChatBlockM × Nat × Nat)
  | _, [] => []
  | lastIdx, chat :: rest =>
    match findSub (prompt.drop lastIdx) chat.key with
    | some idx =>
        (some chat, idx + lastIdx, idx + lastIdx + chat.key.length)
          :: locateChats prompt (lastIdx + (idx + chat.key.length)) rest
    | none => locateChats prompt lastIdx rest

/-- The part-building pass of `to_prompt`: each recorded marker owns the text
from the end of its key occurrence to the start of the next marker's
occurrence (or the end of the prompt); parts are trimmed and dropped when
they trim to empty. -/
def buildParts (prompt : Str) : List (Option ChatBlockM × Nat × Nat) → List (Option ChatBlockM × Str)
  | [] => []
  | (oc, _, en0) :: rest =>
    let nxt := match rest with
      | (_, s2, _) :: _ => s2
      | [] => prompt.length
    let piece := trimChars ((prompt.drop en0).take (nxt - en0))
    if piece = [] then buildParts prompt rest else (oc, piece) :: buildParts prompt rest

/-- `VariantProperties::to_prompt`.  Returns `none` exactly where the source
panics (`unreachable!`: chat blocks were declared but none could be located
in the substituted prompt). -/
def toPrompt (vp : VariantReplacers) : Option PromptAstM :=
  let pu := vp.inputs.foldl inputPass (vp.prompt, [])
  let prompt := vp.outputs.foldl (fun p kv => replaceAll p kv.1 kv.2) pu.1
  let used := sortPairs pu.2
  if vp.chats = [] then
    some (.single prompt used)
  else
    let parts := locateChats prompt 0 vp.chats
    match parts with
    | [] => none
    | (oc, st, _) :: _ =>
      let parts := match oc with
        | some _ => if 0 < st then (none, 0, 0) :: parts else parts
        | none => parts
      some (.multi (buildParts prompt parts) used)

/-! ### Order lemmas for the consumed-input sort -/

theorem strLt_irrefl (a : Str) : strLt a a = false := by
  induction a with
  | nil => rfl
  | cons c t ih => simp [strLt, ih]

theorem strLt_trans : ∀ {a b c : Str}, strLt a b = true → strLt b c = true → strLt a c = true := by
  intro a
  induction a with
  | nil =>
    intro b c hab hbc
    cases b with
    | nil => simpa [strLt] using hab
    | cons d u =>
      cases c with
      | nil => simp [strLt] at hbc
      | cons e v => simp [strLt]
  | cons x xs ih =>
    intro b c hab hbc
    cases b with
    | nil => simp [strLt] at hab
    | cons d u =>
      cases c with
      | nil => simp [strLt] at hbc
      | cons e v =>
        simp only [strLt] at hab hbc ⊢
        by_cases hxd : x < d
        · by_cases hde : d < e
          · simp [lt_trans hxd hde]
          · simp only [if_pos hxd] at hab
            by_cases hed : e < d
            · simp [hde, hed] at hbc
            · have : d = e := le_antisymm (not_lt.mp hed) (not_lt.mp hde)
              subst this
              simp [hxd]
        · by_cases hdx : d < x
          · simp [hxd, hdx] at hab
          · have : x = d := le_antisymm (not_lt.mp hdx) (not_lt.mp hxd)
            subst this
            simp only [lt_irrefl, if_false] at hab
            by_cases hde : x < e
            · simp [hde]
            · by_cases hed : e < x
              · simp [hde, hed] at hbc
              · have : x = e := le_antisymm (not_lt.mp hed) (not_lt.mp hde)
                subst this
                simp only [lt_irrefl, if_false] at hbc ⊢
                exact ih hab hbc

theorem strLt_connex : ∀ {a b : Str}, strLt a b = false → strLt b a = false → a = b := by
  intro a
  induction a with
  | nil =>
    intro b hab _
    cases b with
    | nil => rfl
    | cons d u => simp [strLt] at hab
  | cons x xs ih =>
    intro b hab hba
    cases b with
    | nil => simp [strLt] at hba
    | cons d u =>
      simp only [strLt] at hab hba
      by_cases hxd : x < d
      · simp [hxd] at hab
      · by_cases hdx : d < x
        · simp [hdx] at hba
        · have hx : x = d := le_antisymm (not_lt.mp hdx) (not_lt.mp hxd)
          subst hx
          simp only [lt_irrefl, if_false] at hab hba
          exact congrArg₂ _ rfl (ih hab hba)

theorem strLt_asymm {a b : Str} (h : strLt a b = true) : strLt b a = false := by
  by_contra hc
  have hba : strLt b a = true := by
    cases hcase : strLt b a
    · exact absurd hcase hc
    · rfl
  have := strLt_trans h hba
  rw [strLt_irrefl] at this
  exact Bool.false_ne_true this

instance : IsTotal (Str × Str) pairLE := by
  constructor
  intro x y
  unfold pairLE pairLEb
  by_cases h1 : strLt x.1 y.1
  · left; simp [h1]
  · by_cases h2 : strLt y.1 x.1
    · right; simp [h2]
    · have hx1 : strLt x.1 y.1 = false := by simpa using h1
      have hy1 : strLt y.1 x.1 = false := by simpa using h2
      by_cases h3 : strLt y.2 x.2
      · right
        simp [hx1, hy1, strLt_asymm h3]
      · left
        simp only [hx1, hy1, Bool.false_eq_true, if_false, Bool.not_eq_true']
        simpa using h3

instance : IsTrans (Str × Str) pairLE := by
  constructor
  intro x y z hxy hyz
  unfold pairLE pairLEb at *
  by_cases hxy1 : strLt x.1 y.1 <;> by_cases hyz1 : strLt y.1 z.1
  · simp [strLt_trans hxy1 hyz1]
  · simp only [hyz1, if_false] at hyz
    by_cases hzy1 : strLt z.1 y.1
    · simp [hzy1] at hyz
    · have h1 : y.1 = z.1 := strLt_connex (by simpa using hyz1) (by simpa using hzy1)
      simp [h1 ▸ hxy1]
  · simp only [hxy1, if_false] at hxy
    by_cases hyx1 : strLt y.1 x.1
    · simp [hyx1] at hxy
    · have h1 : x.1 = y.1 := strLt_connex (by simpa using hxy1) (by simpa using hyx1)
      simp [h1, hyz1]
  · simp only [hxy1, if_false] at hxy
    simp only [hyz1, if_false] at hyz
    by_cases hyx1 : strLt y.1 x.1
    · simp [hyx1] at hxy
    · by_cases hzy1 : strLt z.1 y.1
      · simp [hzy1] at hyz
      · simp only [hyx1, if_false] at hxy
        simp only [hzy1, if_false] at hyz
        have h1 : x.1 = y.1 := strLt_connex (by simpa using hxy1) (by simpa using hyx1)
        have h2 : y.1 = z.1 := strLt_connex (by simpa using hyz1) (by simpa using hzy1)
        have hx1 : strLt x.1 z.1 = false := by rw [h1, h2, strLt_irrefl]
        have hz1 : strLt z.1 x.1 = false := by rw [h1, h2, strLt_irrefl]
        simp only [hx1, hz1, if_false, Bool.false_eq_true]
        cases hzx2 : strLt z.2 x.2 with
        | false => trivial
        | true =>
          cases hyx2 : strLt y.2 x.2 with
          | true => simp [hyx2] at hxy
          | false =>
            cases hzy2 : strLt z.2 y.2 with
            | true => simp [hzy2] at hyz
            | false =>
              cases hxy2 : strLt x.2 y.2 with
              | true =>
                have := strLt_trans hzx2 hxy2
                simp [this] at hzy2
              | false =>
                have h3 : x.2 = y.2 := strLt_connex hxy2 hyx2
                rw [h3] at hzx2
                simp [hzx2] at hzy2

/-! ### The input-replacer fold of `to_prompt` -/

theorem inputPass_foldl_fst (inputs : List (Str × Str)) (p : Str) (acc : List (Str × Str)) :
    (inputs.foldl inputPass (p, acc)).1 = p := by
  induction inputs generalizing acc with
  | nil => rfl
  | cons kv rest ih =>
    simp only [List.foldl_cons, inputPass]
    split <;> exact ih _

theorem inputPass_foldl_snd (inputs : List (Str × Str)) (p : Str) (acc : List (Str × Str)) :
    (inputs.foldl inputPass (p, acc)).2 =
      acc ++ inputs.filter (fun kv => containsSub p kv.1) := by
  induction inputs generalizing acc with
  | nil => simp
  | cons kv rest ih =>
    simp only [List.foldl_cons, inputPass]
    by_cases h : containsSub p kv.1
    · simp [h, ih, List.filter_cons]
    · have hf : containsSub p kv.1 = false := by simpa using h
      simp [hf, ih, List.filter_cons]

theorem sortPairs_mem (l : List (Str × Str)) (kv : Str × Str) :
    kv ∈ sortPairs l ↔ kv ∈ l :=
  (List.perm_insertionSort _ l).mem_iff

theorem sortPairs_sorted (l : List (Str × Str)) : List.Sorted pairLE (sortPairs l) :=
  List.sorted_insertionSort _ l

/-! ### Claim C1: plain (non-chat) prompt assembly -/

/-- C1 counterexample: on the template `"Hello {{input}}"` with the single
input marker keyed `"{{input}}"` bound to `"world"` and no chat markers,
`to_prompt` does **not** return the substituted text `"Hello world"`: the
input fold records the consumed pair but leaves the prompt text unchanged. -/
theorem C1_counterexample :
    toPrompt ⟨("Hello \x7b\x7binput\x7d\x7d").data,
        [(("\x7b\x7binput\x7d\x7d").data, "world".data)], [], []⟩ ≠
      some (.single "Hello world".data
        [(("\x7b\x7binput\x7d\x7d").data, "world".data)]) := by
  decide

/-- C1 (amended): with no chat-role markers and no printer-block replacers,
`to_prompt` returns a single-part result whose text is the template
**unchanged** (input markers are recorded, not substituted), together with a
consumed-input list that is sorted lexicographically and contains exactly the
input markers whose key occurs as a literal substring of the template;
markers whose key never occurs are silently dropped. -/
theorem C1_plain_prompt_records_inputs (p : Str) (inputs : List (Str × Str)) :
    ∃ used, toPrompt ⟨p, inputs, [], []⟩ = some (.single p used) ∧
      List.Sorted pairLE used ∧
      ∀ kv, kv ∈ used ↔ kv ∈ inputs ∧ containsSub p kv.1 = true := by
  refine ⟨sortPairs (inputs.filter (fun kv => containsSub p kv.1)), ?_, sortPairs_sorted _, ?_⟩
  · unfold toPrompt
    simp [inputPass_foldl_fst, inputPass_foldl_snd]
  · intro kv
    rw [sortPairs_mem, List.mem_filter]

/-! ### Claim C2: chat-role segmentation -/

/-- C2: chat case of `to_prompt`.  For a template of the shape
`w ++ key₁ ++ t₁ ++ key₂ ++ t₂` where the first chat marker's key first
occurs right after the (nonempty, all-whitespace) leading text `w` and the
second marker's key first occurs (searching after the first marker) right
after `t₁`: the first located occurrence is not at offset 0, so an implicit
role-less leading part covering the text before it is synthesized; each
part's text runs from the end of its marker to the start of the next located
marker (end of text for the last) and is trimmed; the leading part trims to
empty and is dropped, so the result is exactly
`[(system-marker, trim t₁), (user-marker, trim t₂)]` in declaration order. -/
theorem C2_chat_segmentation (c1 c2 : ChatBlockM) (w t1 t2 : Str)
    (hw0 : w ≠ [])
    (hwtrim : trimChars w = [])
    (h1 : findSub (w ++ c1.key ++ t1 ++ c2.key ++ t2) c1.key = some w.length)
    (h2 : findSub (t1 ++ c2.key ++ t2) c2.key = some t1.length)
    (ht1 : trimChars t1 ≠ [])
    (ht2 : trimChars t2 ≠ []) :
    toPrompt ⟨w ++ c1.key ++ t1 ++ c2.key ++ t2, [], [], [c1, c2]⟩ =
      some (.multi [(some c1, trimChars t1), (some c2, trimChars t2)] []) := by
  set P : Str := w ++ c1.key ++ t1 ++ c2.key ++ t2 with hP
  have hlenA : (w ++ c1.key).length = w.length + c1.key.length := by
    simp
  have hdropA : P.drop (w.length + c1.key.length) = t1 ++ c2.key ++ t2 := by
    have hPA : P = (w ++ c1.key) ++ (t1 ++ c2.key ++ t2) := by
      simp [hP]
    rw [hPA, ← hlenA, List.drop_left]
  have hloc : locateChats P 0 [c1, c2] =
      [(some c1, w.length, w.length + c1.key.length),
       (some c2, t1.length + (w.length + c1.key.length),
        t1.length + (w.length + c1.key.length) + c2.key.length)] := by
    unfold locateChats
    rw [List.drop_zero, h1]
    simp only [Nat.add_zero, Nat.zero_add]
    unfold locateChats
    rw [hdropA, h2]
    simp [locateChats]
  have hw1 : 0 < w.length := List.length_pos.mpr hw0
  have hpiece0 : trimChars ((P.drop 0).take (w.length - 0)) = [] := by
    rw [List.drop_zero, Nat.sub_zero]
    have hPW : P = w ++ (c1.key ++ t1 ++ c2.key ++ t2) := by
      simp [hP]
    rw [hPW, List.take_left]
    exact hwtrim
  have hpiece1 :
      (P.drop (w.length + c1.key.length)).take
        (t1.length + (w.length + c1.key.length) - (w.length + c1.key.length)) = t1 := by
    rw [hdropA, Nat.add_sub_cancel]
    have : t1 ++ c2.key ++ t2 = t1 ++ (c2.key ++ t2) := by
      simp
    rw [this, List.take_left]
  have hlenB : (w ++ c1.key ++ t1 ++ c2.key).length =
      t1.length + (w.length + c1.key.length) + c2.key.length := by
    simp
    omega
  have hdropB : P.drop (t1.length + (w.length + c1.key.length) + c2.key.length) = t2 := by
    have hPB : P = (w ++ c1.key ++ t1 ++ c2.key) ++ t2 := by
      simp [hP]
    rw [hPB, ← hlenB, List.drop_left]
  have hpiece2 :
      (P.drop (t1.length + (w.length + c1.key.length) + c2.key.length)).take
        (P.length - (t1.length + (w.length + c1.key.length) + c2.key.length)) = t2 := by
    rw [hdropB]
    have hPl : P.length = t1.length + (w.length + c1.key.length) + c2.key.length + t2.length := by
      simp [hP]
      omega
    rw [hPl, Nat.add_sub_cancel_left]
    exact List.take_length t2
  unfold toPrompt
  simp only [List.foldl_nil]
  rw [if_neg (by simp : ¬([c1, c2] : List ChatBlockM) = [])]
  rw [hloc]
  simp only []
  rw [if_pos hw1]
  unfold buildParts
  simp only []
  rw [hpiece0]
  simp only [if_pos rfl]
  unfold buildParts
  simp only []
  rw [hpiece1]
  rw [if_neg ht1]
  unfold buildParts
  simp only []
  rw [hpiece2]
  rw [if_neg ht2]
  unfold buildParts
  rfl

/-- C2 witness: a concrete template with a `system` marker after two spaces,
some text, a `user` marker and more text segments into exactly the two
role-tagged trimmed parts. -/
theorem C2_chat_segmentation_witness :
    toPrompt ⟨"  ".data ++ "\x7b#chat(system)\x7d".data ++ " You are helpful. ".data ++
          "\x7b#chat(user)\x7d".data ++ " Hi".data, [], [],
        [⟨"system".data, "\x7b#chat(system)\x7d".data⟩,
         ⟨"user".data, "\x7b#chat(user)\x7d".data⟩]⟩ =
      some (.multi
        [(some ⟨"system".data, "\x7b#chat(system)\x7d".data⟩, trimChars " You are helpful. ".data),
         (some ⟨"user".data, "\x7b#chat(user)\x7d".data⟩, trimChars " Hi".data)] []) :=
  C2_chat_segmentation ⟨"system".data, "\x7b#chat(system)\x7d".data⟩
    ⟨"user".data, "\x7b#chat(user)\x7d".data⟩ "  ".data " You are helpful. ".data " Hi".data
    (by decide) (by decide) (by decide) (by decide) (by decide) (by decide)

/-! ### Validation pipeline (baml-core/src/validate/validation_pipeline/validations.rs)

The enum, class and cycle passes only read the database and push diagnostics,
so each pass is modelled by the list of diagnostics it pushes (their bodies
live outside the analysed sources).  The gating control flow is the one of
`validations::validate`. -/

/-- A diagnostic record: severity plus message. -/
structure Diagnostic where
  isError : Bool
  message : String
deriving DecidableEq, Repr

/-- An error-severity diagnostic. -/
def mkError (msg : String) : Diagnostic := ⟨true, msg⟩

/-- A warning-severity diagnostic. -/
def mkWarning (msg : String) : Diagnostic := ⟨false, msg⟩

/-- `Diagnostics::has_errors`. -/
def hasErrors (ds : List Diagnostic) : Bool := ds.any (·.isError)

/-- `validations::validate`: run the enum pass, then the class pass, then the
cycle pass — the latter only when the diagnostics collection holds no error
after the first two.  Each pass (body not under the analysed sources) is
given by the diagnostics it pushes against the fixed database. -/
def runValidationPipeline (enumDiags classDiags cycleDiags : List Diagnostic)
    (d : List Diagnostic) : List Diagnostic :=
  let d1 := d ++ enumDiags ++ classDiags
  if hasErrors d1 then d1 else d1 ++ cycleDiags

theorem hasErrors_append (a b : List Diagnostic) :
    hasErrors (a ++ b) = (hasErrors a || hasErrors b) := by
  simp [hasErrors, List.any_append]

/-! ### Claim C4: cycle validation gating -/

/-- C4: starting from an error-free diagnostics collection, the cycle pass
contributes its diagnostics exactly when the enum pass and the class pass
together produced zero errors; whenever either produced an error, the
pipeline's output is just the first two passes' output and the cycle pass
never pushes a diagnostic. -/
theorem C4_cycle_gating (enumDiags classDiags cycleDiags d : List Diagnostic)
    (hd : hasErrors d = false) :
    runValidationPipeline enumDiags classDiags cycleDiags d =
      if hasErrors enumDiags = false ∧ hasErrors classDiags = false
      then (d ++ enumDiags ++ classDiags) ++ cycleDiags
      else d ++ enumDiags ++ classDiags := by
  unfold runValidationPipeline
  simp only []
  rw [hasErrors_append, hasErrors_append, hd]
  by_cases he : hasErrors enumDiags = false
  · by_cases hc : hasErrors classDiags = false
    · rw [he, hc]
      simp
    · have hc' : hasErrors classDiags = true := by simpa using hc
      rw [he, hc']
      simp
  · have he' : hasErrors enumDiags = true := by simpa using he
    rw [he']
    simp [he']

/-- C4 witness: with an erroring class pass the cycle diagnostics are
dropped; with clean passes they are appended. -/
theorem C4_cycle_gating_witness :
    runValidationPipeline [] [mkError "dup"] [mkError "cycle"] [] = [mkError "dup"] ∧
    runValidationPipeline [] [] [mkError "cycle"] [] = [mkError "cycle"] := by
  constructor
  · have h := C4_cycle_gating [] [mkError "dup"] [mkError "cycle"] [] (by decide)
    rw [h]
    decide
  · have h := C4_cycle_gating [] [] [mkError "cycle"] [] (by decide)
    rw [h]
    decide

/-! ### BamlContext target selection (baml-lib/baml/src/lib.rs) -/

/-- The kind of a top-level declaration, as recorded in the database's
name→top table (`names.tops`). -/
inductive TopKindM where
  | classKind
  | enumKind
  | otherKind
deriving DecidableEq, Repr

/-- The parser database as seen by `build_target_type`: the interned
name→declaration table, in declaration order. -/
structure ParserDbM where
  tops : List (String × TopKindM)
deriving DecidableEq, Repr

/-- `ParserDatabase::find_type_by_str`: look the name up in the top table and
keep it only when it names a class (`Sum.inl`) or an enum (`Sum.inr`). -/
def findTypeByStr (db : ParserDbM) (n : String) : Option (String ⊕ String) :=
  match db.tops.find? (fun t => t.1 = n) with
  | some (name, .classKind) => some (.inl name)
  | some (name, .enumKind) => some (.inr name)
  | _ => none

/-- `ParserDatabase::walk_classes`, reduced to the class names in
declaration order. -/
def walkClasses (db : ParserDbM) : List String :=
  db.tops.filterMap (fun t => if t.2 = .classKind then some t.1 else none)

/-- `ParserDatabase::walk_enums`, reduced to the enum names in declaration
order. -/
def walkEnums (db : ParserDbM) : List String :=
  db.tops.filterMap (fun t => if t.2 = .enumKind then some t.1 else none)

/-- The target output type (`FieldType::Class` / `FieldType::Enum`). -/
inductive TargetTypeM where
  | classT (n : String)
  | enumT (n : String)
deriving DecidableEq, Repr

/-- Outcome of `BamlContext::try_from_schema` / `build_target_type`:
a successful target, a recoverable `Err`, or a panic (`unwrap` on `None`). -/
inductive BuildOutcome where
  | ok (t : TargetTypeM)
  | err (msg : String)
  | panicked
deriving DecidableEq, Repr

/-- `BamlContext::build_target_type`.  With an explicit target name the
lookup result is `unwrap`ped — `None` panics.  With no target name, the
default is the first declared class, else the first declared enum, else the
recoverable "No BAML `class` or `enum` found in the schema" error. -/
def buildTargetType (db : ParserDbM) (targetName : Option String) : BuildOutcome :=
  match targetName with
  | some n =>
    match findTypeByStr db n with
    | some (.inl cl) => .ok (.classT cl)
    | some (.inr enm) => .ok (.enumT enm)
    | none => .panicked
  | none =>
    let firstClass := (walkClasses db).head?
    let firstEnum := (walkEnums db).head?
    if firstClass = none ∧ firstEnum = none then
      .err "No BAML `class` or `enum` found in the schema"
    else
      match firstClass with
      | some cl => .ok (.classT cl)
      | none =>
        match firstEnum with
        | some enm => .ok (.enumT enm)
        | none => .panicked

/-- A validated schema as consumed by `try_from_schema`: the database plus
whether its diagnostics contain errors, and the pretty-printed report
(validation itself happens in the out-of-scope parser front end). -/
structure ValidatedSchemaM where
  db : ParserDbM
  hasErrs : Bool
  prettyErrors : String
deriving DecidableEq, Repr

/-- `BamlContext::try_from_schema`, projected onto target selection: with
errors in the diagnostics, the formatted report is returned as a recoverable
error; otherwise the target type is built (the remaining context
construction cannot fail). -/
def tryFromSchema (vs : ValidatedSchemaM) (targetName : Option String) : BuildOutcome :=
  if vs.hasErrs then .err vs.prettyErrors
  else buildTargetType vs.db targetName

/-! ### Claim C10: explicit-target misses panic; the recoverable error is
default-path only -/

/-- C10: on an error-free schema, an explicit target name that is not a
declared class or enum name makes `try_from_schema` panic (unwrap of `None`)
rather than return an error; and the recoverable "No BAML `class` or `enum`
found in the schema" error arises exactly on the default path with neither a
class nor an enum declared (otherwise the default target is the first
declared class, else the first declared enum). -/
theorem C10_target_lookup (vs : ValidatedSchemaM) (n : String)
    (hok : vs.hasErrs = false) :
    (findTypeByStr vs.db n = none → tryFromSchema vs (some n) = .panicked) ∧
    (∀ tn, tryFromSchema vs tn = .err "No BAML `class` or `enum` found in the schema" →
      vs.prettyErrors = "No BAML `class` or `enum` found in the schema" ∨
        (tn = none ∧ walkClasses vs.db = [] ∧ walkEnums vs.db = [])) ∧
    (walkClasses vs.db = [] → walkEnums vs.db = [] →
      tryFromSchema vs none = .err "No BAML `class` or `enum` found in the schema") ∧
    (∀ cl rest, walkClasses vs.db = cl :: rest →
      tryFromSchema vs none = .ok (.classT cl)) ∧
    (∀ enm rest, walkClasses vs.db = [] → walkEnums vs.db = enm :: rest →
      tryFromSchema vs none = .ok (.enumT enm)) := by
  unfold tryFromSchema
  rw [hok]
  simp only [Bool.false_eq_true, if_false]
  refine ⟨?_, ?_, ?_, ?_, ?_⟩
  · intro hmiss
    simp [buildTargetType, hmiss]
  · intro tn herr
    match tn with
    | some m =>
      cases hfind : findTypeByStr vs.db m <;> simp [buildTargetType, hfind] at herr
      rename_i v
      cases v <;> simp at herr
    | none =>
      by_cases hcond : walkClasses vs.db = [] ∧ walkEnums vs.db = []
      · exact Or.inr ⟨rfl, hcond.1, hcond.2⟩
      · exfalso
        rcases Classical.em (walkClasses vs.db = []) with hc | hc
        · have he : walkEnums vs.db ≠ [] := fun he => hcond ⟨hc, he⟩
          cases hee : walkEnums vs.db with
          | nil => exact he hee
          | cons e es => simp [buildTargetType, hc, hee] at herr
        · cases hcc : walkClasses vs.db with
          | nil => exact hc hcc
          | cons c cs => simp [buildTargetType, hcc] at herr
  · intro hc he
    simp [buildTargetType, hc, he]
  · intro cl rest hc
    simp [buildTargetType, hc]
  · intro enm rest hc he
    simp [buildTargetType, hc, he]

/-- C10 witness: a schema declaring one class `A` and one enum `E`, queried
with the undeclared target name `Missing`, panics; with no target it picks
`A`; an empty schema with no target yields the recoverable error. -/
theorem C10_target_lookup_witness :
    tryFromSchema ⟨⟨[("A", .classKind), ("E", .enumKind)]⟩, false, ""⟩ (some "Missing") =
      .panicked ∧
    tryFromSchema ⟨⟨[("A", .classKind), ("E", .enumKind)]⟩, false, ""⟩ none =
      .ok (.classT "A") ∧
    tryFromSchema ⟨⟨[]⟩, false, ""⟩ none =
      .err "No BAML `class` or `enum` found in the schema" := by
  refine ⟨?_, ?_, ?_⟩
  · exact (C10_target_lookup ⟨⟨[("A", .classKind), ("E", .enumKind)]⟩, false, ""⟩
      "Missing" rfl).1 (by decide)
  · exact (C10_target_lookup ⟨⟨[("A", .classKind), ("E", .enumKind)]⟩, false, ""⟩
      "Missing" rfl).2.2.2.1 "A" [] (by decide)
  · exact (C10_target_lookup ⟨⟨[]⟩, false, ""⟩ "x" rfl).2.2.1 rfl rfl

/-! ### Expression and value resolution (baml-core/src/ir/walker.rs)

The IR expression type (`repr::Expression`) and the runtime value type
(`BamlValue`).  Rust `f64` values are modelled exactly: a parsed decimal
becomes its exact rational value (IEEE-754 rounding and overflow-to-infinity
are abstracted away; no claim observes them). -/

/-- `baml_types::TypeValue`, the six primitive semantic kinds. -/
inductive TypeValueM where
  | string | int | float | bool | null | image
deriving DecidableEq, Repr

/-- Rendering of a primitive kind.  Modelled from the spec: the `Display`
impl is not among the analysed sources; §8 names the kinds
string/int/float/bool/null/image. -/
def TypeValueM.toStr : TypeValueM → String
  | .string => "string"
  | .int => "int"
  | .float => "float"
  | .bool => "bool"
  | .null => "null"
  | .image => "image"

/-- `repr::Identifier`. -/
inductive RIdentifier where
  /-- An environment-variable reference. -/
  | env (s : String)
  /-- A dotted-path reference. -/
  | ref (path : List String)
  /-- A bare local name. -/
  | loc (s : String)
  /-- A primitive type name. -/
  | primitive (t : TypeValueM)
deriving DecidableEq, Repr

/-- `Identifier::name`.  Modelled from the spec: the accessor's body is not
among the analysed sources; the spec calls it the identifier's bare name
(`resolve` joins a `Ref` path with dots, which fixes the `ref` case). -/
def RIdentifier.name : RIdentifier → String
  | .env s => s
  | .ref path => String.intercalate "." path
  | .loc s => s
  | .primitive t => t.toStr

/-- `repr::Expression`. -/
inductive RExpression where
  | identifier (idn : RIdentifier)
  | bool (b : Bool)
  | string (s : String)
  | rawString (s : String)
  | numeric (n : String)
  | map (entries : List (RExpression × RExpression))
  | list (elems : List RExpression)

/-- An environment snapshot (`HashMap<String, String>`), as an association
list with unique keys supplied by the caller. -/
abbrev EnvMap := List (String × String)

/-- `HashMap::get`. -/
def envGet (env : EnvMap) (k : String) : Option String :=
  (env.find? (fun p => p.1 = k)).map (·.2)

/-- `HashMap::contains_key`. -/
def envContains (env : EnvMap) (k : String) : Bool :=
  (env.find? (fun p => p.1 = k)).isSome

/-- `Expression::as_bool`. -/
def asBool (e : RExpression) (env : EnvMap) : Except String Bool :=
  match e with
  | .bool b => .ok b
  | .identifier (.env s) => .ok (envContains env s)
  | _ => .error "Expected bool value"

/-- `Expression::as_string_value`. -/
def asStringValue (e : RExpression) (env : EnvMap) : Except String String :=
  match e with
  | .string s => .ok s
  | .rawString s => .ok s
  | .identifier (.env s) =>
    match envGet env s with
    | some v => .ok v
    | none => .error ("Environment variable " ++ s ++ " not found")
  | .identifier idn => .ok idn.name
  | _ => .error "Expected string value"

/-- Decimal digits to a natural number. -/
def digitsVal (cs : Str) : Nat :=
  cs.foldl (fun a c => a * 10 + (c.toNat - 48)) 0

/-- Rust `i64::from_str`: an optional sign followed by one or more decimal
digits, whose value fits a signed 64-bit integer. -/
def parseI64 (s : String) : Option Int :=
  let core : Str → Bool → Option Int := fun ds neg =>
    if ds.isEmpty then none
    else if ds.all Char.isDigit then
      let v : Int := if neg then -(digitsVal ds : Int) else (digitsVal ds : Int)
      if -(2 ^ 63) ≤ v ∧ v ≤ 2 ^ 63 - 1 then some v else none
    else none
  match s.data with
  | '+' :: rest => core rest false
  | '-' :: rest => core rest true
  | cs => core cs false

/-- A parsed `f64` at exact precision: a rational value, an infinity, or a
NaN. -/
inductive FloatVal where
  | finite (q : ℚ)
  | inf
  | negInf
  | nan
deriving DecidableEq, Repr

/-- Split a character list at the first exponent letter (`e` / `E`). -/
def splitAtExp (cs : Str) : Str × Option Str :=
  match cs with
  | [] => ([], none)
  | c :: t =>
    if c = 'e' ∨ c = 'E' then ([], some t)
    else
      let r := splitAtExp t
      (c :: r.1, r.2)

/-- Split a character list at the first `.`. -/
def splitAtDot (cs : Str) : Str × Option Str :=
  match cs with
  | [] => ([], none)
  | c :: t =>
    if c = '.' then ([], some t)
    else
      let r := splitAtDot t
      (c :: r.1, r.2)

/-- The exponent of a float literal: optional sign, one or more digits. -/
def parseExpPart (es : Str) : Option Int :=
  let core : Str → Bool → Option Int := fun ds neg =>
    if !ds.isEmpty && ds.all Char.isDigit then
      some (if neg then -(digitsVal ds : Int) else (digitsVal ds : Int))
    else none
  match es with
  | '+' :: rest => core rest false
  | '-' :: rest => core rest true
  | cs => core cs false

/-- Rust `f64::from_str`: optional sign, then `inf`/`infinity`/`nan`
(case-insensitive) or a decimal number `D+ | D+ . D* | D* . D+` with an
optional exponent.  The numeric value is kept exact. -/
def parseF64 (s : String) : Option FloatVal :=
  let signSplit : Str → Bool × Str := fun cs =>
    match cs with
    | '+' :: r => (false, r)
    | '-' :: r => (true, r)
    | r => (false, r)
  let p := signSplit s.data
  let neg := p.1
  let cs := p.2
  let low := cs.map Char.toLower
  if low = "inf".data ∨ low = "infinity".data then
    some (if neg then .negInf else .inf)
  else if low = "nan".data then some .nan
  else
    let me := splitAtExp cs
    let df := splitAtDot me.1
    let ip := df.1
    let fp := df.2.getD []
    if !(ip.all Char.isDigit) ∨ !(fp.all Char.isDigit) then none
    else if ip = [] ∧ fp = [] then none
    else
      let expVal : Option Int :=
        match me.2 with
        | none => some 0
        | some es => parseExpPart es
      match expVal with
      | none => none
      | some ex =>
        let mantQ : ℚ := (digitsVal (ip ++ fp) : ℚ) / ((10 : ℚ) ^ fp.length)
        let q := mantQ * (10 : ℚ) ^ ex
        some (.finite (if neg then -q else q))

/-- `BamlValue`. -/
inductive BamlValueM where
  | null
  | bool (b : Bool)
  | int (i : Int)
  | float (f : FloatVal)
  | string (s : String)
  | list (xs : List BamlValueM)
  | map (entries : List (String × BamlValueM))

/-- `IndexMap::insert`: replace in place when the key is present, else
append. -/
def mapInsert (m : List (String × BamlValueM)) (k : String) (v : BamlValueM) :
    List (String × BamlValueM) :=
  if m.any (fun p => p.1 = k) then
    m.map (fun p => if p.1 = k then (k, v) else p)
  else m ++ [(k, v)]

mutual

/-- `Expression::resolve`. -/
def resolve (e : RExpression) (env : EnvMap) : Except String BamlValueM :=
  match e with
  | .identifier idn =>
    match idn with
    | .env s =>
      match envGet env s with
      | some v => .ok (.string v)
      | none => .error ("Environment variable " ++ s ++ " not found")
    | .ref path => .ok (.string (String.intercalate "." path))
    | .loc r =>
      if r = "true" then .ok (.bool true)
      else if r = "false" then .ok (.bool false)
      else if r = "null" then .ok .null
      else .ok (.string r)
    | .primitive t => .ok (.string t.toStr)
  | .bool b => .ok (.bool b)
  | .map entries => (resolveMapEntries entries env []).map BamlValueM.map
  | .list elems => (resolveListElems elems env).map BamlValueM.list
  | .rawString s => .ok (.string s)
  | .string s => .ok (.string s)
  | .numeric n =>
    match parseI64 n with
    | some i => .ok (.int i)
    | none =>
      match parseF64 n with
      | some f => .ok (.float f)
      | none => .error ("Invalid numeric value: " ++ n)

/-- The key/value loop of `resolve` on `Map` expressions: keys via
`as_string_value`, values via `resolve`, inserted left to right. -/
def resolveMapEntries (entries : List (RExpression × RExpression)) (env : EnvMap)
    (acc : List (String × BamlValueM)) : Except String (List (String × BamlValueM)) :=
  match entries with
  | [] => .ok acc
  | (k, v) :: rest =>
    match asStringValue k env with
    | .error e => .error e
    | .ok ks =>
      match resolve v env with
      | .error e => .error e
      | .ok vv => resolveMapEntries rest env (mapInsert acc ks vv)

/-- The element loop of `resolve` on `List` expressions. -/
def resolveListElems (elems : List RExpression) (env : EnvMap) :
    Except String (List BamlValueM) :=
  match elems with
  | [] => .ok []
  | v :: rest =>
    match resolve v env with
    | .error e => .error e
    | .ok vv =>
      match resolveListElems rest env with
      | .error e => .error e
      | .ok vs => .ok (vv :: vs)

end

/-! ### Resolution lemmas -/

theorem resolveListElems_ok_iff (env : EnvMap) :
    ∀ (l : List RExpression) (vs : List BamlValueM),
      resolveListElems l env = .ok vs ↔
        List.Forall₂ (fun e v => resolve e env = .ok v) l vs := by
  intro l
  induction l with
  | nil =>
    intro vs
    constructor
    · intro h
      cases vs with
      | nil => exact List.Forall₂.nil
      | cons v vs => simp [resolveListElems] at h
    · intro h
      cases h
      rfl
  | cons e rest ih =>
    intro vs
    constructor
    · intro h
      rw [resolveListElems] at h
      cases he : resolve e env <;> rw [he] at h
      · exact absurd h (by simp)
      · cases hr : resolveListElems rest env <;> rw [hr] at h
        · exact absurd h (by simp)
        · rename_i vv vs'
          cases h
          exact List.Forall₂.cons he ((ih vs').mp hr)
    · intro h
      cases h with
      | cons hv hrest =>
        rename_i vv vs'
        rw [resolveListElems, hv, (ih vs').mpr hrest]

theorem mapInsert_of_not_mem (m : List (String × BamlValueM)) (k : String) (v : BamlValueM)
    (h : ∀ p ∈ m, p.1 ≠ k) : mapInsert m k v = m ++ [(k, v)] := by
  have hany : m.any (fun p => p.1 = k) = false := by
    rw [List.any_eq_false]
    intro p hp
    simpa using h p hp
  unfold mapInsert
  rw [hany]
  simp

theorem resolveMapEntries_append (env : EnvMap) :
    ∀ (entries : List (RExpression × RExpression)) (kvs : List (String × BamlValueM))
      (acc : List (String × BamlValueM)),
      List.Forall₂ (fun (e : RExpression × RExpression) (kv : String × BamlValueM) =>
        asStringValue e.1 env = .ok kv.1 ∧ resolve e.2 env = .ok kv.2) entries kvs →
      (kvs.map Prod.fst).Nodup →
      (∀ p ∈ acc, ∀ q ∈ kvs, p.1 ≠ q.1) →
      resolveMapEntries entries env acc = .ok (acc ++ kvs) := by
  intro entries
  induction entries with
  | nil =>
    intro kvs acc hall _ _
    cases hall
    simp [resolveMapEntries]
  | cons e rest ih =>
    intro kvs acc hall hnd hdisj
    cases hall with
    | cons hkv hrest =>
      rename_i kv kvs'
      rw [resolveMapEntries, hkv.1, hkv.2]
      have hins : mapInsert acc kv.1 kv.2 = acc ++ [kv] := by
        rw [mapInsert_of_not_mem]
        intro p hp
        exact hdisj p hp kv (by simp)
      show resolveMapEntries rest env (mapInsert acc kv.1 kv.2) = .ok (acc ++ kv :: kvs')
      rw [hins]
      simp only [List.map_cons, List.nodup_cons] at hnd
      have hdisj' : ∀ p ∈ acc ++ [kv], ∀ q ∈ kvs', p.1 ≠ q.1 := by
        intro p hp q hq
        rcases List.mem_append.mp hp with hpa | hpk
        · exact hdisj p hpa q (by simp [hq])
        · have hpe : p = kv := by simpa using hpk
          subst hpe
          intro hc
          exact hnd.1 (List.mem_map.mpr ⟨q, hq, hc.symm⟩)
      have hrec := ih kvs' (acc ++ [kv]) hrest hnd.2 hdisj'
      rw [hrec]
      simp

/-! ### Claim C6: `resolve` -/

/-- C6: for every environment snapshot, `resolve` maps `String`/`RawString`
literals to the same string; `Numeric` text parses as a 64-bit integer
first, else as floating point, else fails (`"3"` → `Int 3`, `"3.5"` →
`Float 3.5`, `"abc"` fails); the local identifiers `true`/`false`/`null`
resolve to the matching literals and any other local identifier to its own
name as a string; `List` and `Map` expressions resolve element-wise in
order (map keys via `as_string_value`). -/
theorem C6_resolve_spec :
    (∀ env s, resolve (.string s) env = .ok (.string s)) ∧
    (∀ env s, resolve (.rawString s) env = .ok (.string s)) ∧
    (∀ env n i, parseI64 n = some i → resolve (.numeric n) env = .ok (.int i)) ∧
    (∀ env n f, parseI64 n = none → parseF64 n = some f →
      resolve (.numeric n) env = .ok (.float f)) ∧
    (∀ env n, parseI64 n = none → parseF64 n = none →
      resolve (.numeric n) env = .error ("Invalid numeric value: " ++ n)) ∧
    (∀ env, resolve (.numeric "3") env = .ok (.int 3)) ∧
    (∀ env, resolve (.numeric "3.5") env = .ok (.float (.finite (7 / 2)))) ∧
    (∀ env, resolve (.numeric "abc") env = .error "Invalid numeric value: abc") ∧
    (∀ env, resolve (.identifier (.loc "true")) env = .ok (.bool true)) ∧
    (∀ env, resolve (.identifier (.loc "false")) env = .ok (.bool false)) ∧
    (∀ env, resolve (.identifier (.loc "null")) env = .ok .null) ∧
    (∀ env s, s ≠ "true" → s ≠ "false" → s ≠ "null" →
      resolve (.identifier (.loc s)) env = .ok (.string s)) ∧
    (∀ env l vs, resolve (.list l) env = .ok (.list vs) ↔
      List.Forall₂ (fun e v => resolve e env = .ok v) l vs) ∧
    (∀ env entries kvs,
      List.Forall₂ (fun (e : RExpression × RExpression) (kv : String × BamlValueM) =>
        asStringValue e.1 env = .ok kv.1 ∧ resolve e.2 env = .ok kv.2) entries kvs →
      (kvs.map Prod.fst).Nodup →
      resolve (.map entries) env = .ok (.map kvs)) := by
  refine ⟨?_, ?_, ?_, ?_, ?_, ?_, ?_, ?_, ?_, ?_, ?_, ?_, ?_, ?_⟩
  · intro env s; simp [resolve]
  · intro env s; simp [resolve]
  · intro env n i h; simp [resolve, h]
  · intro env n f h1 h2; simp [resolve, h1, h2]
  · intro env n h1 h2; simp [resolve, h1, h2]
  · intro env
    have h : parseI64 "3" = some 3 := rfl
    simp [resolve, h]
  · intro env
    have h1 : parseI64 "3.5" = none := rfl
    have h2 : parseF64 "3.5" = some (.finite (7 / 2)) := by
      have harith : (((35 : ℕ) : ℚ) / ((10 : ℚ) ^ (1 : ℕ))) * ((10 : ℚ) ^ ((0 : ℤ))) =
          7 / 2 := by
        norm_num
      calc parseF64 "3.5"
          = some (.finite ((((35 : ℕ) : ℚ) / ((10 : ℚ) ^ (1 : ℕ))) * ((10 : ℚ) ^ ((0 : ℤ))))) :=
            rfl
        _ = some (.finite (7 / 2)) := by rw [harith]
    simp [resolve, h1, h2]
  · intro env
    have h1 : parseI64 "abc" = none := rfl
    have h2 : parseF64 "abc" = none := rfl
    simp [resolve, h1, h2]
  · intro env; simp [resolve]
  · intro env; simp [resolve]
  · intro env; simp [resolve]
  · intro env s h1 h2 h3; simp [resolve, h1, h2, h3]
  · intro env l vs
    have heq : resolve (.list l) env = (resolveListElems l env).map BamlValueM.list := by
      simp [resolve]
    rw [heq]
    cases hr : resolveListElems l env with
    | error e =>
      constructor
      · intro h; exact absurd h (by simp [Except.map])
      · intro h
        have hok := (resolveListElems_ok_iff env l vs).mpr h
        rw [hr] at hok
        exact absurd hok (by simp)
    | ok vs' =>
      constructor
      · intro h
        have hv : vs' = vs := by simpa [Except.map] using h
        subst hv
        exact (resolveListElems_ok_iff env l vs').mp hr
      · intro h
        have hok := (resolveListElems_ok_iff env l vs).mpr h
        rw [hr] at hok
        have hv : vs' = vs := by simpa using hok
        subst hv
        simp [Except.map]
  · intro env entries kvs hall hnd
    have hrec := resolveMapEntries_append env entries kvs [] hall hnd (by simp)
    simp [resolve, hrec, Except.map]

/-- C6 witness: concrete resolutions exercising the integer path, the
fallback-to-name path for local identifiers, and element-wise map
resolution. -/
theorem C6_resolve_spec_witness :
    resolve (.numeric "42") [] = .ok (.int 42) ∧
    resolve (.identifier (.loc "maybe")) [] = .ok (.string "maybe") ∧
    resolve (.map [(.string "a", .numeric "3")]) [] = .ok (.map [("a", .int 3)]) := by
  obtain ⟨_, _, hint, _, _, h3, _, _, _, _, _, hloc, _, hmap⟩ := C6_resolve_spec
  refine ⟨hint [] "42" 42 rfl, hloc [] "maybe" (by decide) (by decide) (by decide), ?_⟩
  exact hmap [] [(.string "a", .numeric "3")] [("a", .int 3)]
    (List.Forall₂.cons ⟨by simp [asStringValue], h3 []⟩ List.Forall₂.nil) (by simp)

/-! ### Claim C7: `as_bool` -/

/-- Whether an expression is a `Bool` literal or an `Env` identifier — the
two shapes `as_bool` accepts. -/
def isBoolOrEnvShape (e : RExpression) : Bool :=
  match e with
  | .bool _ => true
  | .identifier (.env _) => true
  | _ => false

/-- C7: `as_bool` returns a `Bool` literal's value; on an `Env` identifier
it returns whether the name is a key of the snapshot, regardless of the
associated value (including the empty string, since only key presence is
tested); every other expression shape fails with the type-mismatch error. -/
theorem C7_as_bool_spec :
    (∀ env b, asBool (.bool b) env = .ok b) ∧
    (∀ env s, asBool (.identifier (.env s)) env = .ok (envContains env s)) ∧
    (∀ env e, isBoolOrEnvShape e = false → asBool e env = .error "Expected bool value") := by
  refine ⟨?_, ?_, ?_⟩
  · intro env b; simp [asBool]
  · intro env s; simp [asBool]
  · intro env e h
    cases e with
    | bool b => simp [isBoolOrEnvShape] at h
    | identifier idn =>
      cases idn with
      | env s => simp [isBoolOrEnvShape] at h
      | ref p => simp [asBool]
      | loc s => simp [asBool]
      | primitive t => simp [asBool]
    | string s => simp [asBool]
    | rawString s => simp [asBool]
    | numeric n => simp [asBool]
    | map entries => simp [asBool]
    | list elems => simp [asBool]

/-- C7 witness: presence of the key with an empty-string value yields `true`;
a numeric expression fails with the type-mismatch error. -/
theorem C7_as_bool_spec_witness :
    asBool (.identifier (.env "KEY")) [("KEY", "")] = .ok true ∧
    asBool (.numeric "1") [] = .error "Expected bool value" := by
  obtain ⟨_, h2, h3⟩ := C7_as_bool_spec
  constructor
  · rw [h2 [("KEY", "")] "KEY"]
    rfl
  · exact h3 [] (.numeric "1") rfl

/-! ### Claim C8: `as_string_value` -/

/-- Whether an identifier is an `Env` reference. -/
def isEnvIdent (idn : RIdentifier) : Bool :=
  match idn with
  | .env _ => true
  | _ => false

/-- C8: `as_string_value` returns the literal text of `String`/`RawString`
expressions; on an `Env` identifier it returns the snapshot value and fails
with the variable-not-found error exactly when the name is absent; any other
identifier yields its bare name without error; numeric, map and list
expressions fail. -/
theorem C8_as_string_value_spec :
    (∀ env s, asStringValue (.string s) env = .ok s) ∧
    (∀ env s, asStringValue (.rawString s) env = .ok s) ∧
    (∀ env s v, envGet env s = some v → asStringValue (.identifier (.env s)) env = .ok v) ∧
    (∀ env s, envGet env s = none →
      asStringValue (.identifier (.env s)) env =
        .error ("Environment variable " ++ s ++ " not found")) ∧
    (∀ env idn, isEnvIdent idn = false →
      asStringValue (.identifier idn) env = .ok idn.name) ∧
    (∀ env n, asStringValue (.numeric n) env = .error "Expected string value") ∧
    (∀ env entries, asStringValue (.map entries) env = .error "Expected string value") ∧
    (∀ env elems, asStringValue (.list elems) env = .error "Expected string value") := by
  refine ⟨?_, ?_, ?_, ?_, ?_, ?_, ?_, ?_⟩
  · intro env s; simp [asStringValue]
  · intro env s; simp [asStringValue]
  · intro env s v h; simp [asStringValue, h]
  · intro env s h; simp [asStringValue, h]
  · intro env idn h
    cases idn with
    | env s => simp [isEnvIdent] at h
    | ref p => simp [asStringValue]
    | loc s => simp [asStringValue]
    | primitive t => simp [asStringValue]
  · intro env n; simp [asStringValue]
  · intro env entries; simp [asStringValue]
  · intro env elems; simp [asStringValue]

/-- C8 witness: present key succeeds with the snapshot value, absent key
fails with the variable-not-found message, and a local identifier falls back
to its own name. -/
theorem C8_as_string_value_spec_witness :
    asStringValue (.identifier (.env "KEY")) [("KEY", "v1")] = .ok "v1" ∧
    asStringValue (.identifier (.env "KEY")) [] =
      .error "Environment variable KEY not found" ∧
    asStringValue (.identifier (.loc "gpt4")) [] = .ok "gpt4" := by
  obtain ⟨_, _, h3, h4, h5, _, _, _⟩ := C8_as_string_value_spec
  refine ⟨h3 [("KEY", "v1")] "KEY" "v1" rfl, ?_, h5 [] (.loc "gpt4") rfl⟩
  have := h4 [] "KEY" rfl
  simpa using this

/-! ### IR entity lookup (baml-core/src/ir/ir_helpers/mod.rs) -/

/-- An enum declaration of the intermediate representation, reduced to the
data the lookup path reads. -/
structure EnumDeclM where
  name : String
  values : List String
deriving DecidableEq, Repr

/-- A class declaration of the intermediate representation. -/
structure ClassDeclM where
  name : String
  fields : List String
deriving DecidableEq, Repr

/-- A template-string declaration of the intermediate representation. -/
structure TemplateDeclM where
  name : String
  content : String
deriving DecidableEq, Repr

/-- The intermediate representation as walked by the `find_*` helpers:
declaration lists in declaration order. -/
structure IRReprM where
  enums : List EnumDeclM
  classes : List ClassDeclM
  templates : List TemplateDeclM
deriving DecidableEq, Repr

/-- A not-found failure: entity kind, the missing name, and the candidate
list.  Modelled from the spec: the `error_not_found!` macro is not among the
analysed sources; the spec says the failure carries the full set of declared
names of that kind. -/
structure NotFoundErr where
  kind : String
  needle : String
  candidates : List String
deriving DecidableEq, Repr

/-- `IRHelper::find_enum`: first declared enum with the requested name, else
a not-found failure listing every declared enum name. -/
def findEnum (ir : IRReprM) (n : String) : Except NotFoundErr EnumDeclM :=
  match ir.enums.find? (fun e => e.name = n) with
  | some e => .ok e
  | none => .error ⟨"enum", n, ir.enums.map (·.name)⟩

/-- `IRHelper::find_class`. -/
def findClass (ir : IRReprM) (n : String) : Except NotFoundErr ClassDeclM :=
  match ir.classes.find? (fun c => c.name = n) with
  | some c => .ok c
  | none => .error ⟨"class", n, ir.classes.map (·.name)⟩

/-- `IRHelper::find_template_string`. -/
def findTemplateString (ir : IRReprM) (n : String) : Except NotFoundErr TemplateDeclM :=
  match ir.templates.find? (fun t => t.name = n) with
  | some t => .ok t
  | none => .error ⟨"template string", n, ir.templates.map (·.name)⟩

/-! ### Claim C9: exact match or full candidate set -/

/-- C9: each of `find_class`/`find_enum`/`find_template_string` returns a
declared entity of that name whenever one exists, and on a miss fails with a
not-found error whose candidate set is exactly the full list of declared
names of that kind. -/
theorem C9_find_entity_spec (ir : IRReprM) (n : String) :
    ((∃ e ∈ ir.enums, e.name = n) →
      ∃ e, findEnum ir n = .ok e ∧ e ∈ ir.enums ∧ e.name = n) ∧
    ((¬ ∃ e ∈ ir.enums, e.name = n) →
      findEnum ir n = .error ⟨"enum", n, ir.enums.map (·.name)⟩) ∧
    ((∃ c ∈ ir.classes, c.name = n) →
      ∃ c, findClass ir n = .ok c ∧ c ∈ ir.classes ∧ c.name = n) ∧
    ((¬ ∃ c ∈ ir.classes, c.name = n) →
      findClass ir n = .error ⟨"class", n, ir.classes.map (·.name)⟩) ∧
    ((∃ t ∈ ir.templates, t.name = n) →
      ∃ t, findTemplateString ir n = .ok t ∧ t ∈ ir.templates ∧ t.name = n) ∧
    ((¬ ∃ t ∈ ir.templates, t.name = n) →
      findTemplateString ir n = .error ⟨"template string", n, ir.templates.map (·.name)⟩) := by
  refine ⟨?_, ?_, ?_, ?_, ?_, ?_⟩
  · intro hex
    cases hx : ir.enums.find? (fun e => e.name = n) with
    | none =>
      exfalso
      obtain ⟨e, he, hn⟩ := hex
      have := List.find?_eq_none.mp hx e he
      simp [hn] at this
    | some x =>
      exact ⟨x, by simp [findEnum, hx], List.mem_of_find?_eq_some hx,
        by simpa using List.find?_some hx⟩
  · intro hne
    have hnone : ir.enums.find? (fun e => e.name = n) = none := by
      rw [List.find?_eq_none]
      intro e he hc
      exact hne ⟨e, he, by simpa using hc⟩
    simp [findEnum, hnone]
  · intro hex
    cases hx : ir.classes.find? (fun c => c.name = n) with
    | none =>
      exfalso
      obtain ⟨c, hc, hn⟩ := hex
      have := List.find?_eq_none.mp hx c hc
      simp [hn] at this
    | some x =>
      exact ⟨x, by simp [findClass, hx], List.mem_of_find?_eq_some hx,
        by simpa using List.find?_some hx⟩
  · intro hne
    have hnone : ir.classes.find? (fun c => c.name = n) = none := by
      rw [List.find?_eq_none]
      intro c hc hcc
      exact hne ⟨c, hc, by simpa using hcc⟩
    simp [findClass, hnone]
  · intro hex
    cases hx : ir.templates.find? (fun t => t.name = n) with
    | none =>
      exfalso
      obtain ⟨t, ht, hn⟩ := hex
      have := List.find?_eq_none.mp hx t ht
      simp [hn] at this
    | some x =>
      exact ⟨x, by simp [findTemplateString, hx], List.mem_of_find?_eq_some hx,
        by simpa using List.find?_some hx⟩
  · intro hne
    have hnone : ir.templates.find? (fun t => t.name = n) = none := by
      rw [List.find?_eq_none]
      intro t ht htt
      exact hne ⟨t, ht, by simpa using htt⟩
    simp [findTemplateString, hnone]

/-- C9 witness: an exact hit returns the declared enum; a miss on the class
table reports every declared class name as candidates. -/
theorem C9_find_entity_spec_witness :
    findEnum ⟨[⟨"Color", ["Red"]⟩], [⟨"A", []⟩, ⟨"B", []⟩], []⟩ "Color" =
      .ok ⟨"Color", ["Red"]⟩ ∧
    findClass ⟨[⟨"Color", ["Red"]⟩], [⟨"A", []⟩, ⟨"B", []⟩], []⟩ "Missing" =
      .error ⟨"class", "Missing", ["A", "B"]⟩ := by
  constructor
  · obtain ⟨e, he, hmem, hn⟩ :=
      (C9_find_entity_spec ⟨[⟨"Color", ["Red"]⟩], [⟨"A", []⟩, ⟨"B", []⟩], []⟩ "Color").1
        ⟨⟨"Color", ["Red"]⟩, by simp, rfl⟩
    have hee : e = ⟨"Color", ["Red"]⟩ := by
      have hm : e ∈ [(⟨"Color", ["Red"]⟩ : EnumDeclM)] := hmem
      simpa using hm
    rw [he, hee]
  · exact (C9_find_entity_spec ⟨[⟨"Color", ["Red"]⟩], [⟨"A", []⟩, ⟨"B", []⟩], []⟩ "Missing").2.2.2.1
      (by decide)

/-! ### Class dependency extraction (parser-database/src/types/mod.rs,
`visit_class`) -/

/-- A syntax-level identifier (`schema-ast`'s `Identifier`), spans elided. -/
inductive AstIdentifier where
  /-- An environment-variable reference. -/
  | env (name : String)
  /-- A dotted-path reference. -/
  | ref (fullName : String)
  /-- A bare local name. -/
  | loc (name : String)
  /-- A primitive scalar type. -/
  | primitive (t : TypeValueM)
  /-- A literal-string marker. -/
  | str (value : String)
  /-- An invalid identifier. -/
  | invalid
deriving DecidableEq, Repr

/-- `Identifier::is_valid_type`.  Modelled from the spec: the accessor's body
is not among the analysed sources; §4.2 resolves a type identifier to one of
primitive scalar / class reference / enum reference, while environment
markers, literal-string markers and invalid identifiers are not types. -/
def AstIdentifier.isValidType : AstIdentifier → Bool
  | .loc _ => true
  | .ref _ => true
  | .primitive _ => true
  | _ => false

/-- The `Identifier::Primitive(..)` shape test of `visit_class`'s filter. -/
def AstIdentifier.isPrimitiveId : AstIdentifier → Bool
  | .primitive _ => true
  | _ => false

/-- `WithName::name` for syntax-level identifiers.  Modelled from the spec
(the impl is not among the analysed sources): each identifier renders as its
written name. -/
def AstIdentifier.name : AstIdentifier → String
  | .env n => n
  | .ref fullName => fullName
  | .loc n => n
  | .primitive t => t.toStr
  | .str v => v
  | .invalid => ""

/-- A syntax-level field type (`schema-ast`'s `FieldType`): an identifier or
a composite wrapper, each carrying an `optional` arity flag where the source
does. -/
inductive SchemaFieldType where
  | ident (opt : Bool) (id : AstIdentifier)
  | list (inner : SchemaFieldType) (dims : Nat)
  | tuple (opt : Bool) (elems : List SchemaFieldType)
  | union (opt : Bool) (elems : List SchemaFieldType)
  | dict (key value : SchemaFieldType)

mutual

/-- `FieldType::flat_idns`.  Modelled from the spec: the body is not among
the analysed sources; §4.3 collects every referenced identifier at any
nesting depth through any composite wrapper. -/
def flatIdns : SchemaFieldType → List AstIdentifier
  | .ident _ id => [id]
  | .list inner _ => flatIdns inner
  | .tuple _ elems => flatIdnsList elems
  | .union _ elems => flatIdnsList elems
  | .dict k v => flatIdns k ++ flatIdns v

/-- `flat_idns` over a list of field types. -/
def flatIdnsList : List SchemaFieldType → List AstIdentifier
  | [] => []
  | f :: rest => flatIdns f ++ flatIdnsList rest

end

/-- `visit_class`: the dependency set of a class is the set of distinct
names of valid, non-primitive identifiers occurring in its fields' types
(the `HashSet<String>` is modelled by a deduplicated list). -/
def visitClassDeps (fields : List SchemaFieldType) : List String :=
  (((flatIdnsList fields).filter
    (fun id => id.isValidType && !id.isPrimitiveId)).map (fun id => id.name)).dedup

/-- An identifier occurs somewhere inside a field type, at any nesting
depth. -/
inductive OccursIn (id : AstIdentifier) : SchemaFieldType → Prop where
  | ident (opt : Bool) : OccursIn id (.ident opt id)
  | list (inner : SchemaFieldType) (dims : Nat) :
      OccursIn id inner → OccursIn id (.list inner dims)
  | tuple (opt : Bool) (elems : List SchemaFieldType) (f : SchemaFieldType) :
      f ∈ elems → OccursIn id f → OccursIn id (.tuple opt elems)
  | union (opt : Bool) (elems : List SchemaFieldType) (f : SchemaFieldType) :
      f ∈ elems → OccursIn id f → OccursIn id (.union opt elems)
  | dictKey (k v : SchemaFieldType) : OccursIn id k → OccursIn id (.dict k v)
  | dictVal (k v : SchemaFieldType) : OccursIn id v → OccursIn id (.dict k v)

mutual

theorem mem_flatIdns (id : AstIdentifier) :
    ∀ (ft : SchemaFieldType), id ∈ flatIdns ft ↔ OccursIn id ft
  | .ident opt i => by
    rw [flatIdns]
    constructor
    · intro h
      have : id = i := by simpa using h
      subst this
      exact .ident opt
    · intro h
      cases h
      simp
  | .list inner dims => by
    rw [flatIdns, mem_flatIdns id inner]
    constructor
    · intro h
      exact .list inner dims h
    · intro h
      cases h with
      | list _ _ hh => exact hh
  | .tuple opt elems => by
    rw [flatIdns, mem_flatIdnsList id elems]
    constructor
    · rintro ⟨f, hf, hocc⟩
      exact .tuple opt elems f hf hocc
    · intro h
      cases h with
      | tuple _ _ f hf hocc => exact ⟨f, hf, hocc⟩
  | .union opt elems => by
    rw [flatIdns, mem_flatIdnsList id elems]
    constructor
    · rintro ⟨f, hf, hocc⟩
      exact .union opt elems f hf hocc
    · intro h
      cases h with
      | union _ _ f hf hocc => exact ⟨f, hf, hocc⟩
  | .dict k v => by
    rw [flatIdns]
    rw [List.mem_append, mem_flatIdns id k, mem_flatIdns id v]
    constructor
    · rintro (h | h)
      · exact .dictKey k v h
      · exact .dictVal k v h
    · intro h
      cases h with
      | dictKey _ _ hh => exact Or.inl hh
      | dictVal _ _ hh => exact Or.inr hh

theorem mem_flatIdnsList (id : AstIdentifier) :
    ∀ (l : List SchemaFieldType), id ∈ flatIdnsList l ↔ ∃ f ∈ l, OccursIn id f
  | [] => by
    rw [flatIdnsList]
    simp
  | f :: rest => by
    rw [flatIdnsList, List.mem_append, mem_flatIdns id f, mem_flatIdnsList id rest]
    constructor
    · rintro (h | ⟨g, hg, hocc⟩)
      · exact ⟨f, by simp, h⟩
      · exact ⟨g, by simp [hg], hocc⟩
    · rintro ⟨g, hg, hocc⟩
      rcases List.mem_cons.mp hg with hgf | hgr
      · subst hgf
        exact Or.inl hocc
      · exact Or.inr ⟨g, hgr, hocc⟩

end

/-! ### Claim C5: dependency set = names occurring at any depth -/

/-- C5: a name is in a class's recorded dependency set exactly when some
valid, non-primitive identifier with that name occurs somewhere in one of
its fields' type expressions, at any nesting depth through any composite
wrapper; and containment kind is irrelevant — wrapping a field type in a
`List` or flipping its optional arity leaves the dependency set unchanged. -/
theorem C5_class_dependencies (fields : List SchemaFieldType) (n : String) :
    (n ∈ visitClassDeps fields ↔
      ∃ id, (∃ ft ∈ fields, OccursIn id ft) ∧ id.isValidType = true ∧
        id.isPrimitiveId = false ∧ id.name = n) ∧
    (∀ ft dims, visitClassDeps [.list ft dims] = visitClassDeps [ft]) ∧
    (∀ id, visitClassDeps [.ident true id] = visitClassDeps [.ident false id]) := by
  refine ⟨?_, ?_, ?_⟩
  · unfold visitClassDeps
    rw [List.mem_dedup, List.mem_map]
    constructor
    · rintro ⟨id, hmem, hname⟩
      rw [List.mem_filter] at hmem
      obtain ⟨hin, hcond⟩ := hmem
      rw [mem_flatIdnsList] at hin
      have h1 : id.isValidType = true ∧ !id.isPrimitiveId = true := by simpa using hcond
      exact ⟨id, hin, h1.1, by simpa using h1.2, hname⟩
    · rintro ⟨id, hocc, hvalid, hprim, hname⟩
      refine ⟨id, ?_, hname⟩
      rw [List.mem_filter]
      exact ⟨(mem_flatIdnsList id fields).mpr hocc, by simp [hvalid, hprim]⟩
  · intro ft dims
    unfold visitClassDeps
    simp only [flatIdnsList, flatIdns, List.append_nil]
  · intro id
    rfl

/-- C5 witness: a class whose single field has type `B[]?` (a reference
reachable only through a list with optional arity) still records `B` in its
dependency set. -/
theorem C5_class_dependencies_witness :
    "B" ∈ visitClassDeps [.list (.ident true (.loc "B")) 1] :=
  ((C5_class_dependencies [.list (.ident true (.loc "B")) 1] "B").1).mpr
    ⟨.loc "B", ⟨.list (.ident true (.loc "B")) 1, by simp, .list _ 1 (.ident true)⟩,
      rfl, rfl, rfl⟩

/-! ### Variant structural validation (parser-database/src/types/mod.rs,
`visit_variant`) -/

/-- A syntax-level expression, reduced to the shapes `visit_variant`
inspects: plain string literals, raw (block) strings, arrays, and anything
else. -/
inductive AstExpr where
  /-- A plain string literal. -/
  | strVal (s : String)
  /-- A raw (block) string. -/
  | rawStr (s : String)
  /-- A numeric literal. -/
  | numericVal (n : String)
  /-- An array of expressions. -/
  | arrayVal (elems : List AstExpr)
  /-- Any other expression shape. -/
  | otherVal

/-- `coerce::string_with_span`.  Modelled from the spec: the coercion's body
is not among the analysed sources; string-valued expressions coerce, other
shapes push an error and yield nothing. -/
def coerceStringWithSpan : AstExpr → Option String × List Diagnostic
  | .strVal s => (some s, [])
  | .rawStr s => (some s, [])
  | _ => (none, [mkError "Expected a string value."])

/-- `Expression::as_raw_string_value` on syntax expressions. -/
def asRawStringValue : AstExpr → Option String
  | .rawStr s => some s
  | _ => none

/-- `coerce::raw_string`.  Modelled from the spec: raw (block) strings
coerce, anything else pushes an error and yields nothing. -/
def coerceRawString : AstExpr → Option String × List Diagnostic
  | .rawStr s => (some s, [])
  | _ => (none, [mkError "Expected a raw string value."])

/-- `validate_prompt`.  Modelled from the spec: the placeholder grammar
(types/prompt.rs) is not among the analysed sources and out of the spec's
scope; the model returns the prompt text with no extracted markers and no
diagnostics. -/
def validatePrompt (s : String) : Option (String × List String) :=
  some (s, [])

/-- One key/value field of a variant declaration. -/
structure VariantFieldM where
  name : String
  hasTemplateArgs : Bool
  value : Option AstExpr

/-- One adapter declaration of a variant. -/
structure AdapterM where
  fromType : SchemaFieldType
  toType : SchemaFieldType
  converter : AstExpr

/-- A variant declaration as read by `visit_variant`. -/
structure AstVariantM where
  isLlm : Bool
  fields : List VariantFieldM
  adapters : List AdapterM

/-- The recorded `VariantProperties`, reduced to the data `visit_variant`
stores. -/
structure VariantPropsM where
  client : String
  prompt : String
  promptReplacements : List String
  outputAdapter : Option (Nat × List String)
deriving DecidableEq, Repr

/-- The per-field step of `visit_variant`'s `for_each` over the declared
fields: state is (last `client` value seen, last `prompt` value seen,
diagnostics pushed so far).  A repeated `client`/`prompt` silently
overwrites the previous value. -/
def fieldStep (acc : Option AstExpr × Option AstExpr × List Diagnostic)
    (f : VariantFieldM) : Option AstExpr × Option AstExpr × List Diagnostic :=
  if f.name = "client" then
    let d := if f.hasTemplateArgs then
        acc.2.2 ++ [mkError "Did you mean `client` instead of `client<...>`?"]
      else acc.2.2
    match f.value with
    | some item => (some item, acc.2.1, d)
    | none => (acc.1, acc.2.1, d)
  else if f.name = "prompt" then
    let d := if f.hasTemplateArgs then
        acc.2.2 ++ [mkError "Did you mean `prompt` instead of `prompt<...>`?"]
      else acc.2.2
    match f.value with
    | some item => (acc.1, some item, d)
    | none => (acc.1, acc.2.1, d)
  else
    (acc.1, acc.2.1, acc.2.2 ++ [mkError ("Unknown field `" ++ f.name ++ "` in impl<llm>")])

/-- The `client` resolution of `visit_variant`: coerce the last seen value to
a string, or push the missing-field error.  Returns the result and the
diagnostics pushed by this stage. -/
def resolveClient (clientE : Option AstExpr) : Option String × List Diagnostic :=
  match clientE with
  | some e => coerceStringWithSpan e
  | none => (none, [mkError "Missing `client` field in impl<llm>"])

/-- The `prompt` resolution of `visit_variant`: a raw block string goes
through `validate_prompt`; a plain string is accepted with a warning that
placeholders will be ignored; anything else is handled by the string
coercion's error; a missing field pushes the missing-field error. -/
def resolvePrompt (promptE : Option AstExpr) :
    Option (String × List String) × List Diagnostic :=
  match promptE with
  | some e =>
    match asRawStringValue e with
    | some raw =>
      match validatePrompt raw with
      | some pr => (some pr, [])
      | none => (none, [])
    | none =>
      let r := coerceStringWithSpan e
      match r.1 with
      | some s =>
        (some (s, []),
         r.2 ++ [mkWarning
           "To use comments and \x7b#vars\x7d use a block string. #\"...\"# instead."])
      | none => (none, r.2)
  | none => (none, [mkError "Missing `prompt` field in impl<llm>"])

/-- The `input`/`output` shape test on one side of an adapter: the side
matches the target name, and an optional arity is rejected with an error. -/
def checkAdapterSide (ft : SchemaFieldType) (target : String) (msg : String) :
    Bool × List Diagnostic :=
  match ft with
  | .ident opt id =>
    if id.name = target then
      if opt then (false, [mkError msg]) else (true, [])
    else (false, [])
  | _ => (false, [])

/-- The converter of an adapter as a list of per-language raw-string
implementations: an array collects the coercible items (pushing an error per
failure), a single expression must coerce to a raw string. -/
def converterImpls (conv : AstExpr) : Option (List String) × List Diagnostic :=
  match conv with
  | .arrayVal elems =>
    let r := elems.foldl (fun (acc : List String × List Diagnostic) e =>
      let c := coerceRawString e
      match c.1 with
      | some s => (acc.1 ++ [s], acc.2 ++ c.2)
      | none => (acc.1, acc.2 ++ c.2)) ([], [])
    (some r.1, r.2)
  | e =>
    let c := coerceRawString e
    (c.1.map (fun s => [s]), c.2)

/-- One step of `visit_variant`'s adapter fold.  Returns the new
(input adapter, output adapter) pair and the diagnostics pushed by this
step. -/
def adapterStep (idx : Nat) (a : AdapterM)
    (prev : Option (Nat × List String) × Option (Nat × List String)) :
    (Option (Nat × List String) × Option (Nat × List String)) × List Diagnostic :=
  let ri := checkAdapterSide a.fromType "input" "The `input` adapter cannot be optional."
  let ro := checkAdapterSide a.toType "output" "The `output` adapter cannot be optional."
  let d0 := ri.2 ++ ro.2
  if ri.1 && ro.1 then
    (prev, d0 ++ [mkError "The `input` and `output` adapters cannot be used together."])
  else if ri.1 then
    if prev.1.isSome then
      (prev, d0 ++ [mkError "The `input` adapter can only be used once."])
    else
      let im := converterImpls a.converter
      match im.1 with
      | some impls =>
        ((some (idx, impls), prev.2),
         d0 ++ im.2 ++ [mkWarning "The `input` adapter is note yet supported."])
      | none => (prev, d0 ++ im.2)
  else if ro.1 then
    if prev.2.isSome then
      (prev, d0 ++ [mkError "The `output` adapter can only be used once."])
    else
      let im := converterImpls a.converter
      match im.1 with
      | some impls => ((prev.1, some (idx, impls)), d0 ++ im.2)
      | none => (prev, d0 ++ im.2)
  else
    (prev, d0 ++ [mkError "The `input` or `output` adapter must be used."])

/-- `visit_variant`'s adapter fold over all adapters, in declaration order.
Returns the output adapter (the input adapter is bound to `_` in the source)
and the diagnostics pushed. -/
def processAdapters (adapters : List AdapterM) :
    Option (Nat × List String) × List Diagnostic :=
  let r := adapters.foldl
    (fun (acc : Nat × (Option (Nat × List String) × Option (Nat × List String)) ×
        List Diagnostic) a =>
      let s := adapterStep acc.1 a acc.2.1
      (acc.1 + 1, s.1, acc.2.2 ++ s.2)) (0, (none, none), [])
  (r.2.1.2, r.2.2)

/-- `visit_variant`: reject non-LLM variants; scan the fields for the last
`client`/`prompt` values, pushing unknown-field and template-argument
errors; resolve client and prompt; validate the adapters; record the
variant's properties when both client and prompt resolved. -/
def visitVariant (v : AstVariantM) : List Diagnostic × Option VariantPropsM :=
  if !v.isLlm then
    ([mkError "Only LLM variants are supported. Use: impl<llm>"], none)
  else
    let s := v.fields.foldl fieldStep (none, none, [])
    let rc := resolveClient s.1
    let rp := resolvePrompt s.2.1
    let ra := processAdapters v.adapters
    let diags := s.2.2 ++ rc.2 ++ rp.2 ++ ra.2
    match rc.1, rp.1 with
    | some c, some p => (diags, some ⟨c, p.1, p.2, ra.1⟩)
    | _, _ => (diags, none)

/-! ### Field-scan lemmas for `visit_variant` -/

theorem fieldStep_diags_mono (acc : Option AstExpr × Option AstExpr × List Diagnostic)
    (f : VariantFieldM) (d : Diagnostic) (h : d ∈ acc.2.2) :
    d ∈ (fieldStep acc f).2.2 := by
  unfold fieldStep
  by_cases hc : f.name = "client"
  · simp only [hc, if_true]
    cases f.value <;> cases hta : f.hasTemplateArgs <;>
      simp_all [List.mem_append]
  · by_cases hp : f.name = "prompt"
    · simp only [hc, hp, if_true, if_false]
      cases f.value <;> cases hta : f.hasTemplateArgs <;>
        simp_all [List.mem_append]
    · simp only [hc, hp, if_false]
      exact List.mem_append_left _ h

theorem scanFields_diags_mono (fields : List VariantFieldM)
    (acc : Option AstExpr × Option AstExpr × List Diagnostic) (d : Diagnostic)
    (h : d ∈ acc.2.2) : d ∈ (fields.foldl fieldStep acc).2.2 := by
  induction fields generalizing acc with
  | nil => exact h
  | cons f rest ih =>
    simp only [List.foldl_cons]
    exact ih _ (fieldStep_diags_mono acc f d h)

theorem scanFields_client_none (fields : List VariantFieldM)
    (acc : Option AstExpr × Option AstExpr × List Diagnostic)
    (h : ∀ f ∈ fields, f.name ≠ "client") :
    (fields.foldl fieldStep acc).1 = acc.1 := by
  induction fields generalizing acc with
  | nil => rfl
  | cons f rest ih =>
    simp only [List.foldl_cons]
    have hf : f.name ≠ "client" := h f (by simp)
    have hstep : (fieldStep acc f).1 = acc.1 := by
      unfold fieldStep
      by_cases hp : f.name = "prompt" <;>
        simp only [hf, hp, if_true, if_false] <;>
        cases f.value <;> simp
    rw [ih _ (fun g hg => h g (by simp [hg])), hstep]

theorem scanFields_prompt_none (fields : List VariantFieldM)
    (acc : Option AstExpr × Option AstExpr × List Diagnostic)
    (h : ∀ f ∈ fields, f.name ≠ "prompt") :
    (fields.foldl fieldStep acc).2.1 = acc.2.1 := by
  induction fields generalizing acc with
  | nil => rfl
  | cons f rest ih =>
    simp only [List.foldl_cons]
    have hf : f.name ≠ "prompt" := h f (by simp)
    have hstep : (fieldStep acc f).2.1 = acc.2.1 := by
      unfold fieldStep
      by_cases hc : f.name = "client" <;>
        simp only [hf, hc, if_true, if_false] <;>
        cases f.value <;> simp
    rw [ih _ (fun g hg => h g (by simp [hg])), hstep]

theorem scanFields_unknown_mem (fields : List VariantFieldM)
    (acc : Option AstExpr × Option AstExpr × List Diagnostic) (f : VariantFieldM)
    (hf : f ∈ fields) (hc : f.name ≠ "client") (hp : f.name ≠ "prompt") :
    mkError ("Unknown field `" ++ f.name ++ "` in impl<llm>") ∈
      (fields.foldl fieldStep acc).2.2 := by
  induction fields generalizing acc with
  | nil => cases hf
  | cons g rest ih =>
    simp only [List.foldl_cons]
    rcases List.mem_cons.mp hf with hgf | hrest
    · subst hgf
      apply scanFields_diags_mono
      unfold fieldStep
      simp only [hc, hp, if_false]
      exact List.mem_append_right _ (by simp)
    · exact ih _ hrest

theorem visitVariant_diags (v : AstVariantM) (h : v.isLlm = true) :
    (visitVariant v).1 =
      (v.fields.foldl fieldStep (none, none, [])).2.2 ++
      (resolveClient (v.fields.foldl fieldStep (none, none, [])).1).2 ++
      (resolvePrompt (v.fields.foldl fieldStep (none, none, [])).2.1).2 ++
      (processAdapters v.adapters).2 := by
  unfold visitVariant
  rw [h]
  simp only [Bool.not_true, Bool.false_eq_true, if_false]
  cases hrc : (resolveClient (v.fields.foldl fieldStep (none, none, [])).1).1 <;>
    cases hrp : (resolvePrompt (v.fields.foldl fieldStep (none, none, [])).2.1).1 <;>
    simp [hrc, hrp]

/-! ### Claim C3: variant structural validation -/

/-- C3 counterexample: a variant declaring `client` twice (and one `prompt`)
is **not** rejected — no error diagnostic is produced and the properties are
recorded with the last `client` value winning silently. -/
theorem C3_counterexample :
    hasErrors (visitVariant ⟨true, [⟨"client", false, some (.strVal "c1")⟩,
        ⟨"client", false, some (.strVal "c2")⟩,
        ⟨"prompt", false, some (.strVal "p")⟩], []⟩).1 = false ∧
    (visitVariant ⟨true, [⟨"client", false, some (.strVal "c1")⟩,
        ⟨"client", false, some (.strVal "c2")⟩,
        ⟨"prompt", false, some (.strVal "p")⟩], []⟩).2 =
      some ⟨"c2", "p", [], none⟩ := by
  decide

/-- C3 (amended): a missing `client` or `prompt` yields a missing-field
error, a field with any other name yields an unknown-field error, and a
plain (non-raw-block) string `prompt` is accepted with a warning that
placeholders will be ignored; but duplicate `client` or `prompt`
declarations are **not** rejected — the last value-bearing declaration wins
silently and the variant's properties are still recorded. -/
theorem C3_variant_validation :
    (∀ v : AstVariantM, v.isLlm = true → (∀ f ∈ v.fields, f.name ≠ "client") →
      mkError "Missing `client` field in impl<llm>" ∈ (visitVariant v).1) ∧
    (∀ v : AstVariantM, v.isLlm = true → (∀ f ∈ v.fields, f.name ≠ "prompt") →
      mkError "Missing `prompt` field in impl<llm>" ∈ (visitVariant v).1) ∧
    (∀ (v : AstVariantM) (f : VariantFieldM), v.isLlm = true → f ∈ v.fields →
      f.name ≠ "client" → f.name ≠ "prompt" →
      mkError ("Unknown field `" ++ f.name ++ "` in impl<llm>") ∈ (visitVariant v).1) ∧
    (visitVariant ⟨true, [⟨"client", false, some (.strVal "GPT4")⟩,
        ⟨"prompt", false, some (.strVal "hello")⟩], []⟩ =
      ([mkWarning "To use comments and \x7b#vars\x7d use a block string. #\"...\"# instead."],
       some ⟨"GPT4", "hello", [], none⟩)) ∧
    (visitVariant ⟨true, [⟨"client", false, some (.strVal "c1")⟩,
        ⟨"client", false, some (.strVal "c2")⟩,
        ⟨"prompt", false, some (.strVal "p")⟩], []⟩ =
      ([mkWarning "To use comments and \x7b#vars\x7d use a block string. #\"...\"# instead."],
       some ⟨"c2", "p", [], none⟩)) := by
  refine ⟨?_, ?_, ?_, by decide, by decide⟩
  · intro v hllm hnone
    rw [visitVariant_diags v hllm]
    rw [scanFields_client_none v.fields (none, none, []) hnone]
    simp [resolveClient, List.mem_append]
  · intro v hllm hnone
    rw [visitVariant_diags v hllm]
    rw [scanFields_prompt_none v.fields (none, none, []) hnone]
    simp [resolvePrompt, List.mem_append]
  · intro v f hllm hf hc hp
    rw [visitVariant_diags v hllm]
    have := scanFields_unknown_mem v.fields (none, none, []) f hf hc hp
    simp [List.mem_append, this]

/-- C3 witness: a variant with only a `prompt` field gets the missing-client
error; a variant with only a field `foo` gets the unknown-field error. -/
theorem C3_variant_validation_witness :
    mkError "Missing `client` field in impl<llm>" ∈
      (visitVariant ⟨true, [⟨"prompt", false, some (.rawStr "x")⟩], []⟩).1 ∧
    mkError "Unknown field `foo` in impl<llm>" ∈
      (visitVariant ⟨true, [⟨"foo", false, none⟩], []⟩).1 := by
  obtain ⟨h1, _, h3, _, _⟩ := C3_variant_validation
  constructor
  · exact h1 ⟨true, [⟨"prompt", false, some (.rawStr "x")⟩], []⟩ rfl
      (by intro f hf; rcases List.mem_singleton.mp hf with rfl; decide)
  · exact h3 ⟨true, [⟨"foo", false, none⟩], []⟩ ⟨"foo", false, none⟩ rfl (by simp)
      (by decide) (by decide)

end Baml

